import Mathlib

/-!
Verification of the go-installer-tools XAR metadata extractor.

This file shallowly embeds the Go code of the repository:
  * `internal/pkg/xar/xar.go`    — `ExtractXARMetadata`, `readCompressedFile`,
                                   `CheckPKGSignature`, `getPackageInfo`,
                                   `isValidAppFilePath`, `sanitizeBundleString`
  * `internal/pkg/xar/parse.go`  — `parseHeader`, `parseTOC`
  * the Distribution-document synthesizer `parseDistributionFile`

External, effectful collaborators (zlib inflation, bzip2 decoding, XML and
property-list unmarshalling, and the cryptographic digests) are modelled as
oracle functions gathered in the `Oracles` structure; every algorithmic step of
the repository itself is translated directly from the Go source.

Byte streams are modelled as `List Nat` (each element one byte).  Go's `int64`
fields (offsets, lengths, sizes) are modelled as `Int`; `uint16`/`uint32`
header fields as `Nat`.
-/

/-! ## Byte-level helpers: big-endian decoding (mirrors `binary.Read` with
`binary.BigEndian` on the 28-byte `xarHeader` struct) -/

/-- Byte at index `i` of a byte list (0 when out of range; every use is guarded
by a length check, mirroring `binary.Read`, which fails on short input). -/
def byteAt (l : List Nat) (i : Nat) : Nat := l.getD i 0

/-- Big-endian decode of two bytes (`uint16`). -/
def be16 (a b : Nat) : Nat := a * 256 + b

/-- Big-endian decode of four bytes (`uint32`). -/
def be32 (a b c d : Nat) : Nat := ((a * 256 + b) * 256 + c) * 256 + d

/-- Big-endian decode of `n` bytes starting at `start` as an unsigned value. -/
def beNat (l : List Nat) (start n : Nat) : Nat :=
  ((l.drop start).take n).foldl (fun acc x => acc * 256 + x) 0

/-- Reinterpret an unsigned 64-bit value as Go's signed `int64`
(two's complement). -/
def toInt64 (n : Nat) : Int :=
  if n < 2 ^ 63 then (n : Int) else (n : Int) - 2 ^ 64

/-- `xarMagic` from `xar.go`: the magic constant `0x78617221` ("xar!"). -/
def xarMagic : Nat := 0x78617221

/-- `xarHeaderSize` from `xar.go`: the fixed 28-byte header size constant. -/
def xarHeaderSize : Int := 28

/-- The `xarHeader` struct of `xar.go` (fields in declaration order;
`CompressedSize`/`UncompressedSize` are `int64`, the rest unsigned). -/
structure XarHeader where
  magic : Nat
  headerSize : Nat
  version : Nat
  compressedSize : Int
  uncompressedSize : Int
  hashType : Nat
  deriving DecidableEq, Repr

/-- `binary.Read(r, binary.BigEndian, &hdr)` on the 28-byte `xarHeader`
layout: consumes exactly the first 28 bytes of the stream, failing (`none`)
when fewer are available. -/
def decodeHeaderBytes (l : List Nat) : Option XarHeader :=
  if 28 ≤ l.length then
    some { magic := be32 (byteAt l 0) (byteAt l 1) (byteAt l 2) (byteAt l 3)
           headerSize := be16 (byteAt l 4) (byteAt l 5)
           version := be16 (byteAt l 6) (byteAt l 7)
           compressedSize := toInt64 (beNat l 8 8)
           uncompressedSize := toInt64 (beNat l 16 8)
           hashType := be32 (byteAt l 24) (byteAt l 25) (byteAt l 26) (byteAt l 27) }
  else none

/-- The hash algorithms recognized by `parseHeader` in `parse.go`. -/
inductive HashAlg where
  | sha1
  | sha256
  | sha512
  deriving DecidableEq, Repr

/-- The `switch hdr.HashType` of `parseHeader` (`parse.go`): ids `1`, `3`, `4`
(`hashSHA1`, `hashSHA256`, `hashSHA512`) map to algorithms; every other id —
including `0` (`hashNone`) and `2` (`hashMD5`) — is unrecognized. -/
def hashAlgOf : Nat → Option HashAlg
  | 1 => some .sha1
  | 3 => some .sha256
  | 4 => some .sha512
  | _ => none

/-- `io.NewSectionReader(r, start, n)` read in full over a byte list whose
reader is `bytes.NewReader`: the bytes in `[start, start+n)` clamped to the
list (empty when `n ≤ 0`).  Used for the TOC ranges handed to the
decompressor. -/
def sliceClamp (src : List Nat) (start : Nat) (n : Int) : List Nat :=
  if n ≤ 0 then [] else (src.drop start).take n.toNat

/-! ## Substring matching (mirrors `strings.Contains`) -/

/-- `l` starts with `p` (character lists). -/
def startsWithSeq : List Char → List Char → Bool
  | _, [] => true
  | [], _ :: _ => false
  | a :: s, b :: p => a = b && startsWithSeq s p

/-- `p` occurs as a contiguous subsequence of `s` (character lists). -/
def containsSeq (s p : List Char) : Bool :=
  match s with
  | [] => startsWithSeq [] p
  | _ :: rest => startsWithSeq s p || containsSeq rest p

/-- `strings.Contains s p`. -/
def containsSub (s p : String) : Bool := containsSeq s.toList p.toList

/-- `strings.HasPrefix s p` / `String.startsWith`, char-list based. -/
def strStartsWith (s p : String) : Bool := startsWithSeq s.toList p.toList

/-- `strings.HasSuffix s p` / `String.endsWith`, char-list based. -/
def strEndsWith (s p : String) : Bool :=
  startsWithSeq s.toList.reverse p.toList.reverse

/-! ## String sanitation (`sanitizeBundleString` in `xar.go`) -/

/-- Go's `unicode.IsSpace` restricted to the ASCII range (the
`asciiSpace` table of `strings.TrimSpace`); the bundle strings handled by the
repository are ASCII. -/
def isGoSpace (c : Char) : Bool :=
  c = ' ' || c = '\t' || c = '\n' || c = '\x0b' || c = '\x0c' || c = '\r'

/-- `strings.TrimSpace` over a character list. -/
def trimSpaceList (l : List Char) : List Char :=
  ((l.dropWhile isGoSpace).reverse.dropWhile isGoSpace).reverse

/-- `sanitizeBundleString` (`xar.go`): trim surrounding whitespace, then strip
every embedded newline, carriage-return and tab. -/
def sanitizeBundleString (s : String) : String :=
  String.mk ((trimSpaceList s.toList).filter
    (fun c => !(c = '\n' || c = '\r' || c = '\t')))

/-! ## Path helpers (`path/filepath` on unix, as used by `getPackageInfo` and
`isValidAppFilePath`) -/

/-- One segment step of `filepath.Clean`'s lexical algorithm, on a reversed
output stack: empty and `.` segments are dropped; `..` pops a normal segment,
is kept when the stack holds only `..`s (relative paths), and is dropped at
the root of a rooted path; other segments are pushed. -/
def cleanStep (rooted : Bool) (out : List String) (seg : String) : List String :=
  if seg = "" ∨ seg = "." then out
  else if seg = ".." then
    match out with
    | top :: rest => if top = ".." then seg :: top :: rest else rest
    | [] => if rooted then [] else [".."]
  else seg :: out

/-- Split a character list at a separator character (the behaviour of
`strings.Split` with a one-character separator); `cur` is the current segment
accumulated in reverse. -/
def splitSegsAux (c : Char) : List Char → List Char → List String
  | [], cur => [String.mk cur.reverse]
  | x :: xs, cur =>
    if x = c then String.mk cur.reverse :: splitSegsAux c xs []
    else splitSegsAux c xs (x :: cur)

/-- Join segments with `/` separators. -/
def joinSegs : List String → String
  | [] => ""
  | [x] => x
  | x :: y :: xs => x ++ "/" ++ joinSegs (y :: xs)

/-- `filepath.Clean` (unix): segment-based formulation of Go's lexical
cleaning; produces the same string as the Go byte-level loop. -/
def cleanPath (p : String) : String :=
  if p = "" then "."
  else
    let rooted := strStartsWith p "/"
    let out := ((splitSegsAux '/' p.toList []).foldl (cleanStep rooted) []).reverse
    if rooted then "/" ++ joinSegs out
    else if out = [] then "." else joinSegs out

/-- `filepath.Join(a, b)` (unix): skip empty elements, join the rest with
`/`, then `Clean`. -/
def joinPath (a b : String) : String :=
  if a = "" ∧ b = "" then ""
  else if a = "" then cleanPath b
  else if b = "" then cleanPath a
  else cleanPath (a ++ "/" ++ b)

/-- `strings.TrimPrefix p s`: drop the leading occurrence of `p` when `s`
starts with it. -/
def stripLead (p s : String) : String :=
  if strStartsWith s p then String.mk (s.toList.drop p.toList.length) else s

/-- `filepath.Split`: split after the final `/`; `dir` keeps the trailing
separator, `file` is everything after it. -/
def splitPath (s : String) : String × String :=
  let cs := s.toList
  let file := (cs.reverse.takeWhile (fun c => c != '/')).reverse
  (String.mk (cs.take (cs.length - file.length)), String.mk file)

/-- `isValidAppFilePath` (`xar.go`): a bare filename (no directory component)
qualifies as-is; otherwise a `.app` filename directly under `Applications/`
qualifies.  Returns the matched filename, `none` when the path does not
qualify (Go returns `("", false)`). -/
def isValidAppFilePath (input : String) : Option String :=
  let d := splitPath input
  if d.1 = "" ∧ d.2 = input then some d.2
  else if strEndsWith d.2 ".app" = true ∧ d.1 = "Applications/" then some d.2
  else none

/-! ## The unified metadata record (`PKGInstallerMetadata`)

The struct declaration itself lives in a file of the repository that is not
part of the provided sources; its fields are reconstructed from every
assignment and read in `xar.go` and `cmd/main.go`.  The Go field `PkgSizeMB`
is a `float64` holding `size / (1024*1024)`; it is modelled as the raw byte
count `pkgSizeBytes` to stay inside exact arithmetic (no claim concerns it). -/

/-- `AppBundle` as used by `parseDistributionFile` and `cmd/main.go`:
`ID`, `ShortVersion`, `AppLocationPath`. -/
structure AppBundle where
  id : String
  shortVersion : String
  appLocationPath : String
  deriving DecidableEq, Repr

/-- `PKGInstallerMetadata`. -/
structure PKGInstallerMetadata where
  applicationTitle : String := ""
  displayName : String := ""
  bundleName : String := ""
  version : String := ""
  primaryBundleIdentifier : String := ""
  primaryBundlePath : String := ""
  packageIDs : List String := []
  minimumOperatingSystemVersion : String := ""
  hostArchitectures : String := ""
  appBundles : List AppBundle := []
  isSigned : Bool := false
  pkgSizeBytes : Nat := 0
  sha1Sum : List Nat := []
  md5Sum : List Nat := []
  sha256Sum : List Nat := []
  deriving DecidableEq, Repr

/-- The Go zero value `&PKGInstallerMetadata{}`. -/
def emptyMeta : PKGInstallerMetadata := {}

/-! ## Distribution strategy (`parseDistributionFile`)

The XML unmarshalling step (`xml.Unmarshal` into `distributionXML`) is
external; the synthesis below starts from the already-unmarshalled document,
exactly as the Go body does after the `xml.Unmarshal` call. -/

/-- A `bundle` element of a `bundle-version` block in `distributionXML`. -/
structure DBundle where
  cfBundleShortVersionString : String
  cfBundleVersion : String
  id : String
  path : String
  deriving DecidableEq, Repr

/-- A `pkg-ref` element of `distributionXML`: its own `id` and `version`
attributes plus an optional `bundle-version` block. -/
structure PkgRef where
  id : String
  version : String
  bundleVersion : Option (List DBundle)
  deriving DecidableEq, Repr

/-- The unmarshalled `distributionXML` document: title, the
`hostArchitectures` attribute of each `options` element, the `min` attribute
of each `os-version` element, the `pkg-ref` list, and the `product`
attributes. -/
structure DistributionXML where
  title : String
  optionsHostArchitectures : List String
  osVersionMins : List String
  pkgRefs : List PkgRef
  productId : String
  productVersion : String
  deriving DecidableEq, Repr

/-- Build an `AppBundle` from a qualifying `bundle` element (the `append` in
`parseDistributionFile`). -/
def mkAppBundle (b : DBundle) : AppBundle :=
  { id := b.id, shortVersion := b.cfBundleShortVersionString,
    appLocationPath := b.path }

/-- The mutable state of `parseDistributionFile`'s pkg-ref loop. -/
structure DistAcc where
  appBundles : List AppBundle
  primaryBundleIdentifier : String
  primaryBundlePath : String
  primaryFound : Bool
  deriving Repr

/-- One `bundle` iteration of the inner loop of `parseDistributionFile`:
bundles with an empty id or an empty short version are skipped; a duplicate
id (already in `appBundles`) is not appended; the primary is set the first
time a pkg-ref's own id equals the bundle id. -/
def distStep (pkgId : String) (acc : DistAcc) (b : DBundle) : DistAcc :=
  if b.cfBundleShortVersionString ≠ "" ∧ b.id ≠ "" then
    let acc1 :=
      if b.id ∈ acc.appBundles.map AppBundle.id then acc
      else { acc with appBundles := acc.appBundles ++ [mkAppBundle b] }
    if ¬acc1.primaryFound ∧ pkgId = b.id then
      { acc1 with primaryBundleIdentifier := pkgId, primaryBundlePath := b.path,
                  primaryFound := true }
    else acc1
  else acc

/-- The full pkg-ref loop of `parseDistributionFile` (pkg-refs without a
`bundle-version` block are skipped). -/
def distFold (refs : List PkgRef) : DistAcc :=
  refs.foldl
    (fun acc pkg =>
      match pkg.bundleVersion with
      | none => acc
      | some bs => bs.foldl (distStep pkg.id) acc)
    ⟨[], "", "", false⟩

/-- The `pkgIDs` loop of `parseDistributionFile`: each non-empty bundle id not
seen before is appended (the Go code pairs the slice with a `map[string]bool`
kept in lockstep; membership in the accumulated list is the same test). -/
def buildPkgIDs (appBundles : List AppBundle) : List String :=
  appBundles.foldl
    (fun ids ab => if ab.id ≠ "" ∧ ab.id ∉ ids then ids ++ [ab.id] else ids)
    []

/-- The body of `parseDistributionFile` after `xml.Unmarshal`: title, first
`options` host architectures, first `os-version` minimum, the bundle loop,
the primary fallback to the first AppBundle, `pkgIDs`, and the overall
version choice. -/
def distributionSynth (d : DistributionXML) : PKGInstallerMetadata :=
  let acc := distFold d.pkgRefs
  let primary :=
    if ¬acc.primaryFound then
      match acc.appBundles with
      | ab :: _ => (ab.id, ab.appLocationPath)
      | [] => (acc.primaryBundleIdentifier, acc.primaryBundlePath)
    else (acc.primaryBundleIdentifier, acc.primaryBundlePath)
  let version :=
    match acc.appBundles with
    | ab :: _ => ab.shortVersion
    | [] => d.productVersion
  { applicationTitle := d.title
    version := version
    primaryBundleIdentifier := primary.1
    packageIDs := buildPkgIDs acc.appBundles
    minimumOperatingSystemVersion := d.osVersionMins.headD ""
    displayName := d.title
    hostArchitectures := d.optionsHostArchitectures.headD ""
    primaryBundlePath := primary.2
    appBundles := acc.appBundles }

/-- The qualifying bundles of a Distribution document, in encounter order:
every `bundle` under a `pkg-ref`'s `bundle-version` block whose short version
and id are both non-empty. -/
def qualifyingBundles (refs : List PkgRef) : List DBundle :=
  refs.flatMap
    (fun pkg =>
      match pkg.bundleVersion with
      | none => []
      | some bs => bs.filter (fun b => decide (b.cfBundleShortVersionString ≠ "" ∧ b.id ≠ "")))

/-! ## PackageInfo strategy (`getPackageInfo` in `xar.go`)

The property-list decoding is external; the synthesis starts from the
unmarshalled `PackageInfo` value. -/

/-- `BundleInfo` of the PackageInfo plist. -/
structure BundleInfo where
  path : String
  id : String
  cfBundleShortVersionString : String
  cfBundleDisplayName : String
  cfBundleIdentifier : String
  cfBundleName : String
  lsMinimumSystemVersion : String
  deriving DecidableEq, Repr

/-- `PackageInfo` of the plist: top-level version, install-location,
identifier, and the bundle list. -/
structure PackageInfo where
  version : String
  installLocation : String
  identifier : String
  bundles : List BundleInfo
  deriving DecidableEq, Repr

/-- The effective install path computed per bundle in `getPackageInfo`:
join with the install location when the latter is non-empty, then strip one
leading `/`, then one leading `./`. -/
def effectivePath (p : PackageInfo) (b : BundleInfo) : String :=
  let ip := if p.installLocation ≠ "" then joinPath p.installLocation b.path else b.path
  stripLead "./" (stripLead "/" ip)

/-- The mutable state of `getPackageInfo`'s forward pass.  Go collects the
package ids in a `map[string]struct{}` (unordered); the model keeps them as an
insertion-ordered duplicate-free list, and every theorem about `packageIDs`
below is order-insensitive (membership and `Nodup` only). -/
structure PIAcc where
  name : String := ""
  identifier : String := ""
  version : String := ""
  displayName : String := ""
  bundleName : String := ""
  minOSVersion : String := ""
  idSet : List String := []
  deriving DecidableEq, Repr

/-- The overwrite performed when a bundle's effective path qualifies
(`none` leaves the accumulator unchanged). -/
def piApply (acc : PIAcc) (b : BundleInfo) : Option String → PIAcc
  | some base =>
      { acc with identifier := sanitizeBundleString b.id
                 name := base
                 version := sanitizeBundleString b.cfBundleShortVersionString
                 displayName := sanitizeBundleString b.cfBundleDisplayName
                 bundleName := sanitizeBundleString b.cfBundleName
                 minOSVersion := sanitizeBundleString b.lsMinimumSystemVersion }
  | none => acc

/-- The id-set insertion: every non-empty sanitized bundle id not already
present is added. -/
def piAddId (acc : PIAcc) (bid : String) : PIAcc :=
  if bid ≠ "" ∧ bid ∉ acc.idSet then { acc with idSet := acc.idSet ++ [bid] }
  else acc

/-- One bundle iteration of `getPackageInfo`: a qualifying effective path
unconditionally overwrites all six metadata fields; every non-empty sanitized
bundle id joins the id set. -/
def piStep (p : PackageInfo) (acc : PIAcc) (b : BundleInfo) : PIAcc :=
  piAddId (piApply acc b (isValidAppFilePath (effectivePath p b)))
    (sanitizeBundleString b.id)

/-- The forward pass of `getPackageInfo` over all bundles. -/
def piFold (p : PackageInfo) : PIAcc :=
  p.bundles.foldl (piStep p) {}

/-- The 7-tuple returned by `getPackageInfo`. -/
structure PkgInfoResult where
  name : String
  identifier : String
  version : String
  packageIDs : List String
  displayName : String
  bundleName : String
  minOSVersion : String
  deriving DecidableEq, Repr

/-- `strings.Split s "."` followed by taking the last component (the name
fallback of `getPackageInfo`; `strings.Split` never returns an empty slice,
so the last component always exists, `""` for the empty identifier). -/
def lastDotComponent (s : String) : String :=
  (splitSegsAux '.' s.toList []).getLastD ""

/-- `getPackageInfo` (`xar.go`): forward pass, then the version, identifier,
name and packageIDs fallbacks, in that order. -/
def getPackageInfo (p : PackageInfo) : PkgInfoResult :=
  let a := piFold p
  let version := if a.version = "" then sanitizeBundleString p.version else a.version
  let identifier := if a.identifier = "" then sanitizeBundleString p.identifier else a.identifier
  let name := if a.name = "" then lastDotComponent identifier else a.name
  let packageIDs := if a.idSet = [] ∧ identifier ≠ "" then [identifier] else a.idSet
  { name := name, identifier := identifier, version := version,
    packageIDs := packageIDs, displayName := a.displayName,
    bundleName := a.bundleName, minOSVersion := a.minOSVersion }

/-- `parsePackageInfoFile` after a successful plist decode: the
`PKGInstallerMetadata` construction of `xar.go` (the `bundleName` component of
the tuple is not stored in this record by the Go code). -/
def packageInfoSynth (p : PackageInfo) : PKGInstallerMetadata :=
  let r := getPackageInfo p
  { applicationTitle := r.name
    version := r.version
    primaryBundleIdentifier := r.identifier
    packageIDs := r.packageIDs
    displayName := r.displayName
    minimumOperatingSystemVersion := r.minOSVersion }

/-! ## Section extractor (`readCompressedFile` in `xar.go`) -/

/-- The `data` element of a TOC `file` entry (`xmlFileData`). -/
structure XmlFileData where
  length : Int
  offset : Int
  size : Int
  encodingStyle : String
  deriving DecidableEq, Repr

/-- A top-level TOC `file` entry (`xmlFile`); a Go `nil` entry behaves like
one whose `Data` is `nil` (both are skipped by the extraction loop). -/
structure XmlFile where
  name : String
  type : String
  data : Option XmlFileData
  deriving DecidableEq, Repr

/-- `io.ReadAll` over the nested section readers of `readCompressedFile`
before any codec is applied:
`fileReader = SectionReader(SectionReader(src, heapOffset, sectionLength-heapOffset), off, len)`.
Following Go's `io.SectionReader`/`bytes.Reader` semantics in read order:
a non-positive `len` yields `EOF` immediately (empty result, no error); a
negative `off`, or an `off` at or past the heap view's size, yields `EOF`
from the heap `ReadAt` (empty result, no error); a negative absolute offset
reaches `bytes.Reader.ReadAt` and errors; otherwise the reads accumulate the
bytes from absolute position `heapOffset+off`, capped by `len`, by the heap
view's size, and by the end of `src`. -/
def passthroughReadAll (src : List Nat) (heapOffset sectionLength off len : Int) :
    Except Unit (List Nat) :=
  if len ≤ 0 then .ok []
  else if off < 0 ∨ sectionLength - heapOffset ≤ off then .ok []
  else if heapOffset + off < 0 then .error ()
  else .ok ((src.drop (heapOffset + off).toNat).take
              (min len (sectionLength - heapOffset - off)).toNat)

/-- The error outcomes of `readCompressedFile`.  `zlibErr` stands for the
`create zlib reader` wrap (which does not name the entry; the model folds a
mid-stream zlib decode failure, wrapped as `reading <name> file` in Go, into
the same oracle); `readErr` carries the entry name (`reading <name> file`). -/
inductive ReadFileErr where
  | noData
  | zlibErr
  | readErr (name : String)
  deriving DecidableEq, Repr

/-- `readCompressedFile` (`xar.go`): resolve the entry's heap-relative range
through the two nested section readers, then dispatch on the encoding style by
substring match — `x-gzip` decodes through zlib, `x-bzip2` through bzip2,
anything else passes the raw bytes through unchanged.  The zlib and bzip2
codecs are external and passed as oracles over the raw range bytes. -/
def readCompressedFile (zlibDec bzipDec : List Nat → Except Unit (List Nat))
    (src : List Nat) (heapOffset sectionLength : Int) (f : XmlFile) :
    Except ReadFileErr (List Nat) :=
  match f.data with
  | none => .error .noData
  | some d =>
    match passthroughReadAll src heapOffset sectionLength d.offset d.length with
    | .error _ => .error (.readErr f.name)
    | .ok raw =>
      if containsSub d.encodingStyle "x-gzip" then
        match zlibDec raw with
        | .error _ => .error .zlibErr
        | .ok c => .ok c
      else if containsSub d.encodingStyle "x-bzip2" then
        match bzipDec raw with
        | .error _ => .error (.readErr f.name)
        | .ok c => .ok c
      else .ok raw

/-! ## Signature detection (`CheckPKGSignature` + `parseHeader` + `parseTOC`) -/

/-- The two signature-presence booleans of the `toc` struct (`xar.go`):
whether a `signature` / `x-signature` element occurs under the TOC root. -/
structure TocMarkers where
  signature : Bool
  xsignature : Bool
  deriving DecidableEq, Repr

/-- The generic failures of the signature-detection path, kept distinct from
the three classified outcomes. -/
inductive SigFail where
  | readErr
  | unknownHash
  | tocErr
  deriving DecidableEq, Repr

/-- The outcome of `CheckPKGSignature`: `signed` is Go's `nil` return,
`notSigned` is `ErrNotSigned`, `invalidType` is `ErrInvalidType`, and
`failure` covers every other returned error. -/
inductive SigOutcome where
  | signed
  | notSigned
  | invalidType
  | failure (e : SigFail)
  deriving DecidableEq, Repr

/-- The external decoding and digest collaborators of the extraction
pipeline.  `sigToc` is `parseTOC` minus its concrete logic: zlib inflation
plus `xml.Unmarshal` into the marker struct, applied to the compressed TOC
byte range (the digest tee of `parseTOC` does not influence the result).
`bulkToc` is `zlib.NewReader` + `xml.Decode` into `xmlXar`, of which only the
file list is consumed (its two distinct error wraps are folded into one
failure).  `distDec`/`plistDec` are `xml.Unmarshal` into `distributionXML`
and the plist decode into `PackageInfo`.  The digests are total functions of
the whole byte stream (the byte source of the model always rewinds and reads
without I/O errors). -/
structure Oracles where
  sigToc : List Nat → Except Unit TocMarkers
  bulkToc : List Nat → Except Unit (List XmlFile)
  distDec : List Nat → Except Unit DistributionXML
  plistDec : List Nat → Except Unit PackageInfo
  zlibDec : List Nat → Except Unit (List Nat)
  bzipDec : List Nat → Except Unit (List Nat)
  sha1 : List Nat → List Nat
  md5 : List Nat → List Nat
  sha256 : List Nat → List Nat

/-- `CheckPKGSignature` (`xar.go`): buffer the whole input, parse the header
through `parseHeader` (magic check, then hash-algorithm mapping), parse the
TOC from the section `[hdr.HeaderSize, hdr.HeaderSize+hdr.CompressedSize)`,
and classify on the two presence booleans. -/
def checkPKGSignature (O : Oracles) (src : List Nat) : SigOutcome :=
  match decodeHeaderBytes src with
  | none => .failure .readErr
  | some hdr =>
    if hdr.magic ≠ xarMagic then .invalidType
    else
      match hashAlgOf hdr.hashType with
      | none => .failure .unknownHash
      | some _ =>
        match O.sigToc (sliceClamp src hdr.headerSize hdr.compressedSize) with
        | .error _ => .failure .tocErr
        | .ok t =>
          if t.signature = false ∧ t.xsignature = false then .notSigned
          else .signed

/-! ## Bulk metadata extraction (`ExtractXARMetadata`) -/

/-- The errors returned by `ExtractXARMetadata`. -/
inductive ExtractFail where
  | invalidType
  | sigCheck (e : SigFail)
  | headerDecode
  | tocDecode
  deriving DecidableEq, Repr

/-- The TOC entry loop of `ExtractXARMetadata`: each entry with a data
section is read through `readCompressedFile`; a read failure is logged and
skipped; the contents of entries named `Distribution` / `PackageInfo` are
retained (a later entry with the same name overwrites an earlier one). -/
def collectContents (O : Oracles) (src : List Nat) (heapOffset sectionLength : Int)
    (files : List XmlFile) : Option (List Nat) × Option (List Nat) :=
  files.foldl
    (fun acc f =>
      match readCompressedFile O.zlibDec O.bzipDec src heapOffset sectionLength f with
      | .error _ => acc
      | .ok c =>
        if f.name = "Distribution" then (some c, acc.2)
        else if f.name = "PackageInfo" then (acc.1, some c)
        else acc)
    (none, none)

/-- The two-strategy selection of `ExtractXARMetadata`: prefer a Distribution
document that parses; fall back to PackageInfo only when no metadata was
produced; `none` when both are absent or fail to parse. -/
def synthStrategies (O : Oracles) (dc pc : Option (List Nat)) :
    Option PKGInstallerMetadata :=
  let fromDist :=
    match dc with
    | some c =>
      match O.distDec c with
      | .ok d => some (distributionSynth d)
      | .error _ => none
    | none => none
  match fromDist with
  | some m => some m
  | none =>
    match pc with
    | some c =>
      match O.plistDec c with
      | .ok pi => some (packageInfoSynth pi)
      | .error _ => none
    | none => none

/-- `meta.IsSigned = isSignedStatus`, applied to the strategy result when one
exists (the Go assignments right after each successful parse). -/
def applySigned (b : Bool) (m? : Option PKGInstallerMetadata) :
    Option PKGInstallerMetadata :=
  m?.map (fun m => { m with isSigned := b })

/-- The finalization of `ExtractXARMetadata`: absent metadata becomes the
minimal record (initial SHA-256, `IsSigned=false`, and no size); present
metadata receives the initial SHA-256 and the size; then the three
rewind-and-digest passes fill SHA-1 and MD5 and overwrite SHA-256. -/
def finishMeta (O : Oracles) (src : List Nat) (m? : Option PKGInstallerMetadata) :
    PKGInstallerMetadata :=
  let base :=
    match m? with
    | none => { emptyMeta with sha256Sum := O.sha256 src, isSigned := false }
    | some m => { m with sha256Sum := O.sha256 src, pkgSizeBytes := src.length }
  { base with sha1Sum := O.sha1 src, md5Sum := O.md5 src, sha256Sum := O.sha256 src }

/-- The tail of `ExtractXARMetadata` after the signature check: decode the
header with `binary.Read` (no magic or hash validation on this path), inflate
and decode the TOC from the next `hdr.CompressedSize` bytes (position 28),
run the entry loop with `heapOffset = xarHeaderSize + hdr.CompressedSize`,
select a strategy, and finalize. -/
def extractAfterSig (O : Oracles) (src : List Nat) (isSignedStatus : Bool) :
    Except ExtractFail PKGInstallerMetadata :=
  match decodeHeaderBytes src with
  | none => .error .headerDecode
  | some hdr =>
    match O.bulkToc (sliceClamp src 28 hdr.compressedSize) with
    | .error _ => .error .tocDecode
    | .ok files =>
      .ok (finishMeta O src
        (applySigned isSignedStatus
          (synthStrategies O
            (collectContents O src (xarHeaderSize + hdr.compressedSize)
              (src.length : Int) files).1
            (collectContents O src (xarHeaderSize + hdr.compressedSize)
              (src.length : Int) files).2)))

/-- `ExtractXARMetadata` (`xar.go`): compute the initial SHA-256 and size,
rewind, call `CheckPKGSignature` and dispatch on its outcome — `nil` and
`ErrNotSigned` set the signed status and continue, `ErrInvalidType` and every
other error abort the extraction — then run the remainder of the pipeline. -/
def extractXARMetadata (O : Oracles) (src : List Nat) :
    Except ExtractFail PKGInstallerMetadata :=
  match checkPKGSignature O src with
  | .invalidType => .error .invalidType
  | .failure e => .error (.sigCheck e)
  | .signed => extractAfterSig O src true
  | .notSigned => extractAfterSig O src false

/-- The per-entry extraction call of `ExtractXARMetadata`'s loop (line 189 of
`xar.go`): `readCompressedFile(tfr, xarHeaderSize + hdr.CompressedSize, size, f)`
with `size` the total byte count of the source. -/
def readEntryBytes (zlibDec bzipDec : List Nat → Except Unit (List Nat))
    (src : List Nat) (hdr : XarHeader) (f : XmlFile) : Except ReadFileErr (List Nat) :=
  readCompressedFile zlibDec bzipDec src (xarHeaderSize + hdr.compressedSize)
    (src.length : Int) f

/-! ## Spec-side definitions

These follow the specification's words, for comparison against the code-side
definitions above. -/

/-- First-seen de-duplication relative to an already-seen list (spec §4.4:
"de-duplicate by id, first occurrence wins — packageIDs therefore preserve
first-seen insertion order"). -/
def fsDedup (seen : List String) : List String → List String
  | [] => []
  | x :: xs => if x ∈ seen then fsDedup seen xs else x :: fsDedup (x :: seen) xs

/-- First-seen de-duplication of a list of ids. -/
def firstSeenDedup (l : List String) : List String := fsDedup [] l

/-- First-occurrence-wins de-duplication of qualifying bundles by id,
relative to a list of already-used ids; the canonical form of the AppBundle
list the spec describes. -/
def dedupBundles (seen : List String) : List DBundle → List AppBundle
  | [] => []
  | b :: bs =>
    if b.id ∈ seen then dedupBundles seen bs
    else mkAppBundle b :: dedupBundles (b.id :: seen) bs

/-- The heap range the claim C1 predicates: the bytes at
`[hdr.headerSize + hdr.compressedSize + off, … + len)` of the source, with
the heap base taken from the header's declared `headerSize` field (spec §4.3:
"heapBase = headerSize + compressedTOCSize"). -/
def specHeapBytes (src : List Nat) (hdr : XarHeader) (off len : Int) : List Nat :=
  (src.drop ((hdr.headerSize : Int) + hdr.compressedSize + off).toNat).take len.toNat

/-! ## Lemmas about the Distribution fold -/

/-- `fsDedup` depends on the seen list only through membership. -/
theorem fsDedup_congr (l : List String) :
    ∀ s₁ s₂ : List String, (∀ a, a ∈ s₁ ↔ a ∈ s₂) → fsDedup s₁ l = fsDedup s₂ l := by
  induction l with
  | nil => intro s₁ s₂ _; rfl
  | cons x xs ih =>
    intro s₁ s₂ h
    simp only [fsDedup]
    by_cases hx : x ∈ s₁
    · rw [if_pos hx, if_pos ((h x).mp hx)]
      exact ih s₁ s₂ h
    · rw [if_neg hx, if_neg (fun hx2 => hx ((h x).mpr hx2))]
      refine congrArg _ (ih _ _ ?_)
      intro a
      simp only [List.mem_cons]
      exact or_congr Iff.rfl (h a)

/-- `dedupBundles` depends on the seen list only through membership. -/
theorem dedupBundles_congr (l : List DBundle) :
    ∀ s₁ s₂ : List String, (∀ a, a ∈ s₁ ↔ a ∈ s₂) →
      dedupBundles s₁ l = dedupBundles s₂ l := by
  induction l with
  | nil => intro s₁ s₂ _; rfl
  | cons b bs ih =>
    intro s₁ s₂ h
    simp only [dedupBundles]
    by_cases hb : b.id ∈ s₁
    · rw [if_pos hb, if_pos ((h b.id).mp hb)]
      exact ih s₁ s₂ h
    · rw [if_neg hb, if_neg (fun hb2 => hb ((h b.id).mpr hb2))]
      refine congrArg _ (ih _ _ ?_)
      intro a
      simp only [List.mem_cons]
      exact or_congr Iff.rfl (h a)

/-- One step of the appBundles accumulation. -/
def addBundle (l : List AppBundle) (b : DBundle) : List AppBundle :=
  if b.id ∈ l.map AppBundle.id then l else l ++ [mkAppBundle b]

/-- `distStep` changes `appBundles` exactly by `addBundle` on qualifying
bundles and not at all otherwise. -/
theorem distStep_appBundles (pkgId : String) (acc : DistAcc) (b : DBundle) :
    (distStep pkgId acc b).appBundles =
      if b.cfBundleShortVersionString ≠ "" ∧ b.id ≠ "" then
        addBundle acc.appBundles b
      else acc.appBundles := by
  simp only [distStep, addBundle]
  by_cases hq : b.cfBundleShortVersionString ≠ "" ∧ b.id ≠ ""
  · rw [if_pos hq, if_pos hq]
    by_cases hd : b.id ∈ acc.appBundles.map AppBundle.id
    · rw [if_pos hd, if_pos hd]
      by_cases hp : ¬acc.primaryFound ∧ pkgId = b.id
      · rw [if_pos hp]
      · rw [if_neg hp]
    · rw [if_neg hd, if_neg hd]
      by_cases hp : ¬acc.primaryFound ∧ pkgId = b.id
      · rw [if_pos hp]
      · rw [if_neg hp]
  · rw [if_neg hq, if_neg hq]

/-- The appBundles component of the inner bundle loop is the `addBundle` fold
over the filtered bundles. -/
theorem foldl_distStep_appBundles (pkgId : String) (bs : List DBundle) :
    ∀ acc : DistAcc,
      (bs.foldl (distStep pkgId) acc).appBundles =
        (bs.filter (fun b => decide (b.cfBundleShortVersionString ≠ "" ∧ b.id ≠ ""))).foldl
          addBundle acc.appBundles := by
  induction bs with
  | nil => intro acc; rfl
  | cons b bs ih =>
    intro acc
    simp only [List.foldl_cons, List.filter_cons]
    by_cases hq : b.cfBundleShortVersionString ≠ "" ∧ b.id ≠ ""
    · rw [if_pos (by simpa using hq)]
      rw [ih (distStep pkgId acc b), distStep_appBundles, if_pos hq]
      rfl
    · rw [if_neg (by simpa using hq)]
      rw [ih (distStep pkgId acc b), distStep_appBundles, if_neg hq]

/-- The appBundles component of the whole pkg-ref loop is the `addBundle`
fold over the qualifying bundles. -/
theorem distFold_appBundles (refs : List PkgRef) :
    (distFold refs).appBundles = (qualifyingBundles refs).foldl addBundle [] := by
  suffices h : ∀ acc : DistAcc,
      (refs.foldl
        (fun acc pkg =>
          match pkg.bundleVersion with
          | none => acc
          | some bs => bs.foldl (distStep pkg.id) acc) acc).appBundles =
        (qualifyingBundles refs).foldl addBundle acc.appBundles by
    exact h ⟨[], "", "", false⟩
  induction refs with
  | nil => intro acc; rfl
  | cons pkg refs ih =>
    intro acc
    simp only [List.foldl_cons, qualifyingBundles, List.flatMap_cons, List.foldl_append]
    match hbv : pkg.bundleVersion with
    | none =>
      simp only [qualifyingBundles] at ih
      rw [ih acc]
      rfl
    | some bs =>
      simp only [qualifyingBundles] at ih
      rw [ih (bs.foldl (distStep pkg.id) acc), foldl_distStep_appBundles]

/-- The `addBundle` fold is `dedupBundles` relative to the ids already
accumulated. -/
theorem foldl_addBundle_eq_dedupBundles (q : List DBundle) :
    ∀ l : List AppBundle,
      q.foldl addBundle l = l ++ dedupBundles (l.map AppBundle.id) q := by
  induction q with
  | nil => intro l; simp [dedupBundles]
  | cons b bs ih =>
    intro l
    simp only [List.foldl_cons, dedupBundles, addBundle]
    by_cases hb : b.id ∈ l.map AppBundle.id
    · rw [if_pos hb, if_pos hb, ih l]
    · rw [if_neg hb, if_neg hb, ih (l ++ [mkAppBundle b])]
      rw [List.append_assoc]
      refine congrArg _ (congrArg _ ?_)
      rw [dedupBundles_congr bs _ (b.id :: l.map AppBundle.id)]
      intro a
      simp only [List.map_append, List.map_cons, List.map_nil, List.mem_append,
        List.mem_cons, List.mem_singleton, mkAppBundle]
      tauto

/-- The appBundles list produced by `parseDistributionFile` is the
first-occurrence de-duplication of the qualifying bundles. -/
theorem distributionSynth_appBundles (d : DistributionXML) :
    (distributionSynth d).appBundles = dedupBundles [] (qualifyingBundles d.pkgRefs) := by
  show (distFold d.pkgRefs).appBundles = _
  rw [distFold_appBundles, foldl_addBundle_eq_dedupBundles]
  rfl

/-- Every AppBundle that survives de-duplication is built from the first
qualifying bundle bearing its id (`find?` over the qualifying list), and its
id was not previously seen. -/
theorem dedupBundles_mem (q : List DBundle) :
    ∀ (seen : List String) (ab : AppBundle), ab ∈ dedupBundles seen q →
      ab.id ∉ seen ∧
      ∃ b, q.find? (fun x => x.id == ab.id) = some b ∧ ab = mkAppBundle b ∧ b ∈ q := by
  induction q with
  | nil => intro seen ab h; simp [dedupBundles] at h
  | cons b bs ih =>
    intro seen ab h
    simp only [dedupBundles] at h
    by_cases hb : b.id ∈ seen
    · rw [if_pos hb] at h
      obtain ⟨hns, b', hfind, hab, hmem⟩ := ih seen ab h
      refine ⟨hns, b', ?_, hab, List.mem_cons_of_mem _ hmem⟩
      rw [List.find?_cons_of_neg, hfind]
      simp only [beq_iff_eq]
      intro he
      exact hns (he ▸ hb)
    · rw [if_neg hb] at h
      rcases List.mem_cons.mp h with hhead | htail
      · refine ⟨hhead ▸ hb, b, ?_, hhead, List.mem_cons_self b bs⟩
        rw [List.find?_cons_of_pos]
        simp [hhead, mkAppBundle]
      · obtain ⟨hns, b', hfind, hab, hmem⟩ := ih (b.id :: seen) ab htail
        have hne : b.id ≠ ab.id := fun he => hns (by simp [he])
        refine ⟨fun hs => hns (List.mem_cons_of_mem _ hs), b', ?_, hab,
          List.mem_cons_of_mem _ hmem⟩
        rw [List.find?_cons_of_neg, hfind]
        simpa using hne

/-- The ids of the de-duplicated AppBundle list are the first-seen
de-duplication of the qualifying ids. -/
theorem dedupBundles_ids (q : List DBundle) :
    ∀ seen : List String,
      (dedupBundles seen q).map AppBundle.id = fsDedup seen (q.map DBundle.id) := by
  induction q with
  | nil => intro seen; rfl
  | cons b bs ih =>
    intro seen
    simp only [dedupBundles, List.map_cons, fsDedup]
    by_cases hb : b.id ∈ seen
    · rw [if_pos hb, if_pos hb, ih seen]
    · rw [if_neg hb, if_neg hb]
      simp only [List.map_cons, mkAppBundle]
      rw [ih (b.id :: seen)]

/-- `fsDedup` produces a duplicate-free list disjoint from the seen list. -/
theorem fsDedup_nodup (l : List String) :
    ∀ seen : List String,
      (fsDedup seen l).Nodup ∧ ∀ x ∈ fsDedup seen l, x ∉ seen := by
  induction l with
  | nil => intro seen; simp [fsDedup]
  | cons x xs ih =>
    intro seen
    simp only [fsDedup]
    by_cases hx : x ∈ seen
    · rw [if_pos hx]; exact ih seen
    · rw [if_neg hx]
      obtain ⟨hnd, hdisj⟩ := ih (x :: seen)
      refine ⟨List.nodup_cons.mpr ⟨fun hxm => ?_, hnd⟩, ?_⟩
      · exact (hdisj x hxm) (List.mem_cons_self x seen)
      · intro y hy
        rcases List.mem_cons.mp hy with h1 | h2
        · exact h1 ▸ hx
        · exact fun hys => (hdisj y h2) (List.mem_cons_of_mem _ hys)

/-- The generalized `pkgIDs` loop invariant: starting from any accumulator
disjoint from the (duplicate-free, non-empty) ids still to come, the loop
appends exactly the id projection. -/
theorem foldl_pkgIDs_step (l : List AppBundle) :
    ∀ acc : List String,
      (l.map AppBundle.id).Nodup → (∀ ab ∈ l, ab.id ≠ "") →
      (∀ ab ∈ l, ab.id ∉ acc) →
      l.foldl (fun ids ab => if ab.id ≠ "" ∧ ab.id ∉ ids then ids ++ [ab.id] else ids) acc =
        acc ++ l.map AppBundle.id := by
  induction l with
  | nil => intro acc _ _ _; simp
  | cons ab l ih =>
    intro acc hnd hne hacc
    simp only [List.map_cons, List.nodup_cons] at hnd
    simp only [List.foldl_cons]
    rw [if_pos ⟨hne ab (List.mem_cons_self ab l), hacc ab (List.mem_cons_self ab l)⟩]
    rw [ih (acc ++ [ab.id]) hnd.2 (fun x hx => hne x (List.mem_cons_of_mem _ hx)) ?_]
    · simp
    · intro x hx
      simp only [List.mem_append, List.mem_singleton]
      rintro (h1 | h2)
      · exact hacc x (List.mem_cons_of_mem _ hx) h1
      · exact hnd.1 (h2 ▸ List.mem_map_of_mem AppBundle.id hx)

/-- The `pkgIDs` loop: on a list whose ids are duplicate-free and non-empty,
it returns exactly the id projection. -/
theorem buildPkgIDs_eq_map (l : List AppBundle)
    (hnd : (l.map AppBundle.id).Nodup) (hne : ∀ ab ∈ l, ab.id ≠ "") :
    buildPkgIDs l = l.map AppBundle.id := by
  have := foldl_pkgIDs_step l [] hnd hne (by simp)
  simpa [buildPkgIDs] using this

/-- Membership in the qualifying list certifies the two non-emptiness
conditions. -/
theorem qualifyingBundles_prop (refs : List PkgRef) :
    ∀ b ∈ qualifyingBundles refs, b.cfBundleShortVersionString ≠ "" ∧ b.id ≠ "" := by
  intro b hb
  simp only [qualifyingBundles, List.mem_flatMap] at hb
  obtain ⟨pkg, -, hmem⟩ := hb
  obtain ⟨pid, pver, bv⟩ := pkg
  cases bv with
  | none => simp at hmem
  | some bs =>
    have hmem2 : b ∈ bs.filter
        (fun b => decide (b.cfBundleShortVersionString ≠ "" ∧ b.id ≠ "")) := hmem
    exact of_decide_eq_true (List.mem_filter.mp hmem2).2

/-- packageIDs is exactly the id projection of the AppBundle list. -/
theorem distributionSynth_packageIDs (d : DistributionXML) :
    (distributionSynth d).packageIDs = (distributionSynth d).appBundles.map AppBundle.id := by
  have hab := distributionSynth_appBundles d
  have hids : ((distributionSynth d).appBundles.map AppBundle.id) =
      fsDedup [] ((qualifyingBundles d.pkgRefs).map DBundle.id) := by
    rw [hab, dedupBundles_ids]
  have hnd : ((distributionSynth d).appBundles.map AppBundle.id).Nodup := by
    rw [hids]
    exact (fsDedup_nodup _ []).1
  have hne : ∀ ab ∈ (distributionSynth d).appBundles, ab.id ≠ "" := by
    intro ab habm
    rw [hab] at habm
    obtain ⟨-, b, -, habeq, hbq⟩ := dedupBundles_mem _ [] ab habm
    have := (qualifyingBundles_prop d.pkgRefs b hbq).2
    rw [habeq]
    exact this
  show buildPkgIDs (distFold d.pkgRefs).appBundles = _
  have : (distFold d.pkgRefs).appBundles = (distributionSynth d).appBundles := rfl
  rw [this, buildPkgIDs_eq_map _ hnd hne]

/-! ## Claims C3, C8, C10 — Distribution strategy -/

/-- Claim C3: in the Distribution strategy, among bundles with both non-empty
id and non-empty short-version, AppBundles are de-duplicated by id with the
first occurrence winning (every surviving AppBundle is built from the first
qualifying bundle bearing its id, so a later bundle with the same id is
dropped even when its version or path differ), and packageIDs is the
first-seen-order de-duplication of the qualifying bundle ids. -/
theorem c3_distribution_dedup_first_wins (d : DistributionXML) :
    (∀ ab ∈ (distributionSynth d).appBundles,
        ∃ b, (qualifyingBundles d.pkgRefs).find? (fun x => x.id == ab.id) = some b ∧
          ab = mkAppBundle b) ∧
    (distributionSynth d).packageIDs =
      firstSeenDedup ((qualifyingBundles d.pkgRefs).map DBundle.id) := by
  constructor
  · intro ab hab
    rw [distributionSynth_appBundles] at hab
    obtain ⟨-, b, hfind, habeq, -⟩ := dedupBundles_mem _ [] ab hab
    exact ⟨b, hfind, habeq⟩
  · rw [distributionSynth_packageIDs, distributionSynth_appBundles, dedupBundles_ids]
    rfl

/-- A concrete Distribution document: two package-references list the bundle
id `com.acme.app` with differing versions and paths, plus one other id. -/
def distDupExample : DistributionXML :=
  { title := "Acme"
    optionsHostArchitectures := ["x86_64"]
    osVersionMins := ["10.13"]
    pkgRefs :=
      [ { id := "com.acme.pkg1", version := "1",
          bundleVersion := some [⟨"1.0", "100", "com.acme.app", "/Applications/Acme.app"⟩] }
      , { id := "com.acme.pkg2", version := "2",
          bundleVersion := some [⟨"2.0", "200", "com.acme.app", "/elsewhere/Acme.app"⟩,
                                 ⟨"3.0", "300", "com.acme.helper", "/Applications/Helper.app"⟩] } ]
    productId := "com.acme"
    productVersion := "9.9" }

/-- Witness for claim C3 at `distDupExample`: the surviving `com.acme.app`
AppBundle carries the first-encountered version `1.0`, and packageIDs come
out in first-seen order. -/
theorem c3_witness :
    (∃ b, (qualifyingBundles distDupExample.pkgRefs).find?
        (fun x => x.id == (AppBundle.mk "com.acme.app" "1.0" "/Applications/Acme.app").id) =
          some b ∧
        AppBundle.mk "com.acme.app" "1.0" "/Applications/Acme.app" = mkAppBundle b) ∧
    (distributionSynth distDupExample).packageIDs =
      firstSeenDedup ((qualifyingBundles distDupExample.pkgRefs).map DBundle.id) :=
  ⟨(c3_distribution_dedup_first_wins distDupExample).1 _ (by decide),
   (c3_distribution_dedup_first_wins distDupExample).2⟩

/-- Claim C8: in the Distribution strategy the overall version is the short
version of the first AppBundle in encounter order (the first qualifying
bundle) when one exists, and the document's top-level product-version
attribute otherwise. -/
theorem c8_version_selection (d : DistributionXML) :
    (distributionSynth d).version =
      match qualifyingBundles d.pkgRefs with
      | [] => d.productVersion
      | b :: _ => b.cfBundleShortVersionString := by
  have hv : (distributionSynth d).version =
      (match (distributionSynth d).appBundles with
       | ab :: _ => ab.shortVersion
       | [] => d.productVersion) := rfl
  rw [hv, distributionSynth_appBundles]
  cases hq : qualifyingBundles d.pkgRefs with
  | nil => rfl
  | cons b bs => simp [dedupBundles, mkAppBundle]

/-- Claim C10: for every record produced by the Distribution strategy,
packageIDs is exactly the id projection of the AppBundle list (same length,
pointwise equal), and every AppBundle carries a non-empty id and a non-empty
short version. -/
theorem c10_packageids_appbundles_align (d : DistributionXML) :
    (distributionSynth d).packageIDs = (distributionSynth d).appBundles.map AppBundle.id ∧
    (distributionSynth d).packageIDs.length = (distributionSynth d).appBundles.length ∧
    (∀ (i : Nat) (h1 : i < (distributionSynth d).packageIDs.length)
        (h2 : i < (distributionSynth d).appBundles.length),
        (distributionSynth d).packageIDs.get ⟨i, h1⟩ =
          ((distributionSynth d).appBundles.get ⟨i, h2⟩).id) ∧
    ∀ ab ∈ (distributionSynth d).appBundles, ab.id ≠ "" ∧ ab.shortVersion ≠ "" := by
  have hmap := distributionSynth_packageIDs d
  refine ⟨hmap, by rw [hmap]; simp, ?_, ?_⟩
  · intro i h1 h2
    simp only [List.get_eq_getElem]
    simp only [hmap, List.getElem_map]
  · intro ab hab
    rw [distributionSynth_appBundles] at hab
    obtain ⟨-, b, -, habeq, hbq⟩ := dedupBundles_mem _ [] ab hab
    have h := qualifyingBundles_prop d.pkgRefs b hbq
    rw [habeq]
    exact ⟨h.2, h.1⟩

/-- Witness for claim C10 at `distDupExample`. -/
theorem c10_witness :
    (distributionSynth distDupExample).packageIDs =
      (distributionSynth distDupExample).appBundles.map AppBundle.id ∧
    (distributionSynth distDupExample).packageIDs.length =
      (distributionSynth distDupExample).appBundles.length ∧
    ((distributionSynth distDupExample).packageIDs.get
        ⟨0, by decide⟩ =
      ((distributionSynth distDupExample).appBundles.get ⟨0, by decide⟩).id) ∧
    ((AppBundle.mk "com.acme.app" "1.0" "/Applications/Acme.app").id ≠ "" ∧
      (AppBundle.mk "com.acme.app" "1.0" "/Applications/Acme.app").shortVersion ≠ "") :=
  ⟨(c10_packageids_appbundles_align distDupExample).1,
   (c10_packageids_appbundles_align distDupExample).2.1,
   (c10_packageids_appbundles_align distDupExample).2.2.1 0 (by decide) (by decide),
   (c10_packageids_appbundles_align distDupExample).2.2.2 _ (by decide)⟩

/-! ## Lemmas about the PackageInfo forward pass -/

/-- The six metadata fields written by qualifying bundles, as one tuple. -/
def piFields (a : PIAcc) : String × String × String × String × String × String :=
  (a.name, a.identifier, a.version, a.displayName, a.bundleName, a.minOSVersion)

/-- Inserting an id never changes the six metadata fields. -/
theorem piAddId_fields (acc : PIAcc) (bid : String) :
    piFields (piAddId acc bid) = piFields acc := by
  rw [piAddId]
  split
  · rfl
  · rfl

/-- The id set of the insertion step. -/
theorem piAddId_idSet (acc : PIAcc) (bid : String) :
    (piAddId acc bid).idSet =
      if bid ≠ "" ∧ bid ∉ acc.idSet then acc.idSet ++ [bid] else acc.idSet := by
  rw [piAddId]
  split
  · rfl
  · rfl

/-- The overwrite step never changes the id set. -/
theorem piApply_idSet (acc : PIAcc) (b : BundleInfo) (o : Option String) :
    (piApply acc b o).idSet = acc.idSet := by
  cases o
  · rfl
  · rfl

/-- A non-qualifying bundle leaves the six metadata fields unchanged. -/
theorem piStep_fields_of_none (p : PackageInfo) (acc : PIAcc) (b : BundleInfo)
    (h : isValidAppFilePath (effectivePath p b) = none) :
    piFields (piStep p acc b) = piFields acc := by
  rw [piStep, h, piAddId_fields]
  rfl

/-- A qualifying bundle overwrites all six metadata fields with its own
sanitized values (and the returned base filename). -/
theorem piStep_fields_of_some (p : PackageInfo) (acc : PIAcc) (b : BundleInfo)
    (base : String) (h : isValidAppFilePath (effectivePath p b) = some base) :
    piFields (piStep p acc b) =
      (base, sanitizeBundleString b.id,
       sanitizeBundleString b.cfBundleShortVersionString,
       sanitizeBundleString b.cfBundleDisplayName,
       sanitizeBundleString b.cfBundleName,
       sanitizeBundleString b.lsMinimumSystemVersion) := by
  rw [piStep, h, piAddId_fields]
  rfl

/-- Folding over a run of non-qualifying bundles leaves the six metadata
fields unchanged. -/
theorem foldl_piStep_fields_of_none (p : PackageInfo) (l : List BundleInfo) :
    ∀ acc : PIAcc, (∀ b ∈ l, isValidAppFilePath (effectivePath p b) = none) →
      piFields (l.foldl (piStep p) acc) = piFields acc := by
  induction l with
  | nil => intro acc _; rfl
  | cons b l ih =>
    intro acc h
    rw [List.foldl_cons, ih (piStep p acc b) (fun x hx => h x (List.mem_cons_of_mem _ hx)),
      piStep_fields_of_none p acc b (h b (List.mem_cons_self b l))]

/-- One step of the id-set accumulation, independent of qualification. -/
theorem piStep_idSet (p : PackageInfo) (acc : PIAcc) (b : BundleInfo) :
    (piStep p acc b).idSet =
      if sanitizeBundleString b.id ≠ "" ∧ sanitizeBundleString b.id ∉ acc.idSet
      then acc.idSet ++ [sanitizeBundleString b.id] else acc.idSet := by
  rw [piStep, piAddId_idSet]
  simp only [piApply_idSet]

/-- Membership in the accumulated id set: exactly the non-empty sanitized
bundle ids of the processed bundles, plus whatever was already there. -/
theorem foldl_piStep_idSet_mem (p : PackageInfo) (l : List BundleInfo) :
    ∀ (acc : PIAcc) (x : String),
      x ∈ (l.foldl (piStep p) acc).idSet ↔
        x ∈ acc.idSet ∨ (x ≠ "" ∧ ∃ b ∈ l, sanitizeBundleString b.id = x) := by
  induction l with
  | nil => intro acc x; simp
  | cons b l ih =>
    intro acc x
    rw [List.foldl_cons, ih (piStep p acc b) x]
    have hstep : x ∈ (piStep p acc b).idSet ↔
        x ∈ acc.idSet ∨ (x ≠ "" ∧ sanitizeBundleString b.id = x) := by
      rw [piStep_idSet]
      by_cases hc : sanitizeBundleString b.id ≠ "" ∧ sanitizeBundleString b.id ∉ acc.idSet
      · rw [if_pos hc]
        simp only [List.mem_append, List.mem_singleton]
        constructor
        · rintro (h1 | h2)
          · exact Or.inl h1
          · exact Or.inr ⟨h2 ▸ hc.1, h2.symm⟩
        · rintro (h1 | ⟨-, h2⟩)
          · exact Or.inl h1
          · exact Or.inr h2.symm
      · rw [if_neg hc]
        push_neg at hc
        constructor
        · exact Or.inl
        · rintro (h1 | ⟨hne, h2⟩)
          · exact h1
          · rw [← h2]
            exact hc (h2 ▸ hne)
    rw [hstep]
    simp only [List.mem_cons]
    constructor
    · rintro ((h1 | ⟨hne, h2⟩) | ⟨hne, b', hb', h3⟩)
      · exact Or.inl h1
      · exact Or.inr ⟨hne, b, Or.inl rfl, h2⟩
      · exact Or.inr ⟨hne, b', Or.inr hb', h3⟩
    · rintro (h1 | ⟨hne, b', (hb' | hb'), h3⟩)
      · exact Or.inl (Or.inl h1)
      · exact Or.inl (Or.inr ⟨hne, hb' ▸ h3⟩)
      · exact Or.inr ⟨hne, b', hb', h3⟩

/-- The accumulated id set stays duplicate-free. -/
theorem foldl_piStep_idSet_nodup (p : PackageInfo) (l : List BundleInfo) :
    ∀ acc : PIAcc, acc.idSet.Nodup → ((l.foldl (piStep p) acc).idSet).Nodup := by
  induction l with
  | nil => intro acc h; exact h
  | cons b l ih =>
    intro acc h
    rw [List.foldl_cons]
    refine ih (piStep p acc b) ?_
    rw [piStep_idSet]
    by_cases hc : sanitizeBundleString b.id ≠ "" ∧ sanitizeBundleString b.id ∉ acc.idSet
    · rw [if_pos hc, ← List.concat_eq_append]
      exact List.Nodup.concat hc.2 h
    · rw [if_neg hc]
      exact h

/-- When the bundle list splits as `pre ++ bl :: post` with `bl` qualifying
and nothing after it qualifying, the six metadata fields after the forward
pass are exactly `bl`'s values. -/
theorem piFold_fields_last_qualifier (p : PackageInfo) (pre post : List BundleInfo)
    (bl : BundleInfo) (base : String)
    (hsplit : p.bundles = pre ++ bl :: post)
    (hq : isValidAppFilePath (effectivePath p bl) = some base)
    (hpost : ∀ b ∈ post, isValidAppFilePath (effectivePath p b) = none) :
    piFields (piFold p) =
      (base, sanitizeBundleString bl.id,
       sanitizeBundleString bl.cfBundleShortVersionString,
       sanitizeBundleString bl.cfBundleDisplayName,
       sanitizeBundleString bl.cfBundleName,
       sanitizeBundleString bl.lsMinimumSystemVersion) := by
  rw [piFold, hsplit, List.foldl_append, List.foldl_cons,
    foldl_piStep_fields_of_none p post _ hpost]
  exact piStep_fields_of_some p _ bl base hq

/-! ## Claims C4 and C9 — PackageInfo strategy -/

/-- Claim C4: in the PackageInfo strategy, when several bundles qualify the
last qualifying bundle encountered in the forward pass determines name,
identifier, version, displayName, bundleName and minOSVersion (each
qualifying match unconditionally overwrites the prior assignment; the
non-emptiness hypotheses keep the post-pass fallbacks idle, and C9 covers the
case they fire), and packageIDs is a duplicate-free set holding exactly the
non-empty sanitized bundle ids, with no order stated. -/
theorem c4_packageinfo_last_wins (p : PackageInfo) (pre post : List BundleInfo)
    (bl : BundleInfo) (base : String)
    (hsplit : p.bundles = pre ++ bl :: post)
    (hq : isValidAppFilePath (effectivePath p bl) = some base)
    (hpost : ∀ b ∈ post, isValidAppFilePath (effectivePath p b) = none)
    (hid : sanitizeBundleString bl.id ≠ "")
    (hver : sanitizeBundleString bl.cfBundleShortVersionString ≠ "")
    (hbase : base ≠ "") :
    (getPackageInfo p).name = base ∧
    (getPackageInfo p).identifier = sanitizeBundleString bl.id ∧
    (getPackageInfo p).version = sanitizeBundleString bl.cfBundleShortVersionString ∧
    (getPackageInfo p).displayName = sanitizeBundleString bl.cfBundleDisplayName ∧
    (getPackageInfo p).bundleName = sanitizeBundleString bl.cfBundleName ∧
    (getPackageInfo p).minOSVersion = sanitizeBundleString bl.lsMinimumSystemVersion ∧
    (getPackageInfo p).packageIDs.Nodup ∧
    ∀ x, x ∈ (getPackageInfo p).packageIDs ↔
      (x ≠ "" ∧ ∃ b ∈ p.bundles, sanitizeBundleString b.id = x) := by
  have hf := piFold_fields_last_qualifier p pre post bl base hsplit hq hpost
  have hname : (piFold p).name = base := congrArg Prod.fst hf
  have hidf : (piFold p).identifier = sanitizeBundleString bl.id :=
    congrArg (fun t => t.2.1) hf
  have hverf : (piFold p).version = sanitizeBundleString bl.cfBundleShortVersionString :=
    congrArg (fun t => t.2.2.1) hf
  have hdisp : (piFold p).displayName = sanitizeBundleString bl.cfBundleDisplayName :=
    congrArg (fun t => t.2.2.2.1) hf
  have hbn : (piFold p).bundleName = sanitizeBundleString bl.cfBundleName :=
    congrArg (fun t => t.2.2.2.2.1) hf
  have hmos : (piFold p).minOSVersion = sanitizeBundleString bl.lsMinimumSystemVersion :=
    congrArg (fun t => t.2.2.2.2.2) hf
  have hblmem : bl ∈ p.bundles := by
    rw [hsplit]
    exact List.mem_append_right _ (List.mem_cons_self bl post)
  have hmemset : sanitizeBundleString bl.id ∈ (piFold p).idSet :=
    (foldl_piStep_idSet_mem p p.bundles {} _).mpr (Or.inr ⟨hid, bl, hblmem, rfl⟩)
  have hpk : (getPackageInfo p).packageIDs = (piFold p).idSet := by
    have h0 : (getPackageInfo p).packageIDs =
        (if (piFold p).idSet = [] ∧
            (if (piFold p).identifier = "" then sanitizeBundleString p.identifier
             else (piFold p).identifier) ≠ ""
         then [(if (piFold p).identifier = "" then sanitizeBundleString p.identifier
                else (piFold p).identifier)]
         else (piFold p).idSet) := rfl
    rw [h0, if_neg]
    intro hcc
    exact (List.ne_nil_of_mem hmemset) hcc.1
  refine ⟨?_, ?_, ?_, hdisp, hbn, hmos, ?_, ?_⟩
  · have h0 : (getPackageInfo p).name =
        (if (piFold p).name = ""
         then lastDotComponent (if (piFold p).identifier = ""
            then sanitizeBundleString p.identifier else (piFold p).identifier)
         else (piFold p).name) := rfl
    rw [h0, hname, if_neg hbase]
  · have h0 : (getPackageInfo p).identifier =
        (if (piFold p).identifier = "" then sanitizeBundleString p.identifier
         else (piFold p).identifier) := rfl
    rw [h0, hidf, if_neg hid]
  · have h0 : (getPackageInfo p).version =
        (if (piFold p).version = "" then sanitizeBundleString p.version
         else (piFold p).version) := rfl
    rw [h0, hverf, if_neg hver]
  · rw [hpk]
    exact foldl_piStep_idSet_nodup p p.bundles {} (by constructor)
  · intro x
    rw [hpk]
    constructor
    · intro hx
      rcases (foldl_piStep_idSet_mem p p.bundles {} x).mp hx with h1 | h2
      · cases h1
      · exact h2
    · intro h
      exact (foldl_piStep_idSet_mem p p.bundles {} x).mpr (Or.inr h)

/-- A qualifying bundle with version `1.0` (bare `.app` filename). -/
def bundleOne : BundleInfo :=
  { path := "AcmeOne.app", id := "com.acme.one",
    cfBundleShortVersionString := "1.0", cfBundleDisplayName := "Acme One",
    cfBundleIdentifier := "com.acme.one", cfBundleName := "AcmeOne",
    lsMinimumSystemVersion := "10.12" }

/-- A second qualifying bundle with version `2.0`
(`.app` directly under `Applications/`). -/
def bundleTwo : BundleInfo :=
  { path := "Applications/AcmeTwo.app", id := "com.acme.two",
    cfBundleShortVersionString := "2.0", cfBundleDisplayName := "Acme Two",
    cfBundleIdentifier := "com.acme.two", cfBundleName := "AcmeTwo",
    lsMinimumSystemVersion := "10.13" }

/-- A PackageInfo document where both bundles qualify. -/
def pkgInfoExample : PackageInfo :=
  { version := "0.1", installLocation := "", identifier := "com.acme.top",
    bundles := [bundleOne, bundleTwo] }

/-- Witness for claim C4 at `pkgInfoExample`: both bundles qualify and the
later one (version `2.0`) wins every field. -/
theorem c4_witness :
    (getPackageInfo pkgInfoExample).name = "AcmeTwo.app" ∧
    (getPackageInfo pkgInfoExample).identifier = sanitizeBundleString bundleTwo.id ∧
    (getPackageInfo pkgInfoExample).version =
      sanitizeBundleString bundleTwo.cfBundleShortVersionString ∧
    (getPackageInfo pkgInfoExample).displayName =
      sanitizeBundleString bundleTwo.cfBundleDisplayName ∧
    (getPackageInfo pkgInfoExample).bundleName =
      sanitizeBundleString bundleTwo.cfBundleName ∧
    (getPackageInfo pkgInfoExample).minOSVersion =
      sanitizeBundleString bundleTwo.lsMinimumSystemVersion ∧
    (getPackageInfo pkgInfoExample).packageIDs.Nodup ∧
    ∀ x, x ∈ (getPackageInfo pkgInfoExample).packageIDs ↔
      (x ≠ "" ∧ ∃ b ∈ pkgInfoExample.bundles, sanitizeBundleString b.id = x) :=
  c4_packageinfo_last_wins pkgInfoExample [bundleOne] [] bundleTwo "AcmeTwo.app"
    rfl (by decide) (by simp) (by decide) (by decide) (by decide)

/-- Claim C9: in the PackageInfo strategy the fallbacks to the top-level
version and identifier fire whenever the accumulated field is empty after the
forward pass — in particular when the last qualifying bundle's
CFBundleShortVersionString (or id) sanitizes to the empty string — not only
when no bundle ever qualifies. -/
theorem c9_fallback_on_empty_sanitized (p : PackageInfo) (pre post : List BundleInfo)
    (bl : BundleInfo) (base : String)
    (hsplit : p.bundles = pre ++ bl :: post)
    (hq : isValidAppFilePath (effectivePath p bl) = some base)
    (hpost : ∀ b ∈ post, isValidAppFilePath (effectivePath p b) = none) :
    (sanitizeBundleString bl.cfBundleShortVersionString = "" →
      (getPackageInfo p).version = sanitizeBundleString p.version) ∧
    (sanitizeBundleString bl.id = "" →
      (getPackageInfo p).identifier = sanitizeBundleString p.identifier) := by
  have hf := piFold_fields_last_qualifier p pre post bl base hsplit hq hpost
  have hidf : (piFold p).identifier = sanitizeBundleString bl.id :=
    congrArg (fun t => t.2.1) hf
  have hverf : (piFold p).version = sanitizeBundleString bl.cfBundleShortVersionString :=
    congrArg (fun t => t.2.2.1) hf
  constructor
  · intro h0
    have hv : (getPackageInfo p).version =
        (if (piFold p).version = "" then sanitizeBundleString p.version
         else (piFold p).version) := rfl
    rw [hv, hverf, h0, if_pos rfl]
  · intro h0
    have hi : (getPackageInfo p).identifier =
        (if (piFold p).identifier = "" then sanitizeBundleString p.identifier
         else (piFold p).identifier) := rfl
    rw [hi, hidf, h0, if_pos rfl]

/-- A qualifying bundle whose version and id sanitize to the empty string. -/
def bundleBlank : BundleInfo :=
  { path := "Blank.app", id := " \n ",
    cfBundleShortVersionString := "\t  ", cfBundleDisplayName := "Blank",
    cfBundleIdentifier := "", cfBundleName := "Blank",
    lsMinimumSystemVersion := "" }

/-- A PackageInfo document whose only bundle qualifies but carries
whitespace-only version and id. -/
def pkgInfoBlankExample : PackageInfo :=
  { version := "7.7", installLocation := "", identifier := "com.acme.blank",
    bundles := [bundleBlank] }

/-- Witness for claim C9 at `pkgInfoBlankExample`: the bundle qualifies, yet
the top-level version and identifier win because the sanitized bundle fields
are empty. -/
theorem c9_witness :
    (getPackageInfo pkgInfoBlankExample).version =
      sanitizeBundleString pkgInfoBlankExample.version ∧
    (getPackageInfo pkgInfoBlankExample).identifier =
      sanitizeBundleString pkgInfoBlankExample.identifier :=
  ⟨(c9_fallback_on_empty_sanitized pkgInfoBlankExample [] [] bundleBlank "Blank.app"
      rfl (by decide) (by simp)).1 (by decide),
   (c9_fallback_on_empty_sanitized pkgInfoBlankExample [] [] bundleBlank "Blank.app"
      rfl (by decide) (by simp)).2 (by decide)⟩

/-! ## Lemmas about the section extractor -/

/-- With a non-negative heap base, the nested section-reader read never
errors. -/
theorem passthroughReadAll_no_error (src : List Nat)
    (heapOffset sectionLength off len : Int) (hho : 0 ≤ heapOffset) :
    ∃ bs, passthroughReadAll src heapOffset sectionLength off len = .ok bs := by
  unfold passthroughReadAll
  by_cases h0 : len ≤ 0
  · exact ⟨[], by rw [if_pos h0]⟩
  · rw [if_neg h0]
    by_cases h1 : off < 0 ∨ sectionLength - heapOffset ≤ off
    · exact ⟨[], by rw [if_pos h1]⟩
    · rw [if_neg h1, if_neg (by push_neg at h1; omega)]
      exact ⟨_, rfl⟩

/-- An empty or out-of-bounds range yields the empty byte list without an
error. -/
theorem passthroughReadAll_degenerate (src : List Nat)
    (heapOffset sectionLength off len : Int)
    (h : len ≤ 0 ∨ off < 0 ∨ sectionLength - heapOffset ≤ off) :
    passthroughReadAll src heapOffset sectionLength off len = .ok [] := by
  unfold passthroughReadAll
  by_cases h0 : len ≤ 0
  · rw [if_pos h0]
  · rw [if_neg h0, if_pos]
    rcases h with h | h | h
    · exact absurd h h0
    · exact Or.inl h
    · exact Or.inr h

/-- A fully in-bounds range over the whole source reads exactly the `len`
bytes starting at `heapOffset + off`. -/
theorem passthroughReadAll_in_bounds (src : List Nat) (heapOffset off len : Int)
    (hho : 0 ≤ heapOffset) (hoff : 0 ≤ off) (hlen : 0 ≤ len)
    (hbound : heapOffset + off + len ≤ (src.length : Int)) :
    passthroughReadAll src heapOffset (src.length : Int) off len =
      .ok ((src.drop (heapOffset + off).toNat).take len.toNat) := by
  unfold passthroughReadAll
  by_cases h0 : len ≤ 0
  · rw [if_pos h0]
    have hz : len = 0 := le_antisymm h0 hlen
    subst hz
    simp
  · rw [if_neg h0, if_neg (by push_neg at h0; rintro (h | h) <;> omega),
      if_neg (by omega)]
    have hmin : min len ((src.length : Int) - heapOffset - off) = len := by
      push_neg at h0
      omega
    rw [hmin]

/-- On a pass-through entry (neither codec substring present), the extractor
returns exactly what the nested section-reader read produced. -/
theorem readCompressedFile_passthrough (zl bz : List Nat → Except Unit (List Nat))
    (src : List Nat) (heapOffset sectionLength : Int) (f : XmlFile) (d : XmlFileData)
    (hd : f.data = some d)
    (h1 : containsSub d.encodingStyle "x-gzip" = false)
    (h2 : containsSub d.encodingStyle "x-bzip2" = false)
    (bs : List Nat)
    (hp : passthroughReadAll src heapOffset sectionLength d.offset d.length = .ok bs) :
    readCompressedFile zl bz src heapOffset sectionLength f = .ok bs := by
  simp only [readCompressedFile, hd, hp, h1, h2]
  simp

/-! ## Claims C1 and C7 — section extraction -/

/-- Counterexample to claim C1 as stated: a header declaring
`headerSize = 30` (with `compressedTOCSize = 2`) over a 40-byte source whose
bytes equal their indices.  The claim predicts the entry byte at
`headerSize + compressedTOCSize + offset = 32`; the code reads from
`28 + compressedTOCSize + offset = 30`, because `ExtractXARMetadata` uses the
constant `xarHeaderSize`, not the header's declared field. -/
theorem c1_counterexample :
    readEntryBytes (fun _ => .error ()) (fun _ => .error ()) (List.range 40)
        ⟨xarMagic, 30, 1, 2, 0, 1⟩
        ⟨"Distribution", "file", some ⟨1, 0, 1, "application/octet-stream"⟩⟩ =
      .ok [30] ∧
    specHeapBytes (List.range 40) ⟨xarMagic, 30, 1, 2, 0, 1⟩ 0 1 = [32] ∧
    readEntryBytes (fun _ => .error ()) (fun _ => .error ()) (List.range 40)
        ⟨xarMagic, 30, 1, 2, 0, 1⟩
        ⟨"Distribution", "file", some ⟨1, 0, 1, "application/octet-stream"⟩⟩ ≠
      .ok (specHeapBytes (List.range 40) ⟨xarMagic, 30, 1, 2, 0, 1⟩ 0 1) := by
  refine ⟨rfl, rfl, ?_⟩
  intro h
  rw [show specHeapBytes (List.range 40) ⟨xarMagic, 30, 1, 2, 0, 1⟩ 0 1 = [32] from rfl] at h
  exact absurd (Except.ok.inj h) (by decide)

/-- Claim C1, amended: the heap base of the bulk extraction path is the fixed
constant `xarHeaderSize = 28` plus the declared `compressedTOCSize` — the
header's declared `headerSize` field plays no role — and over an uncompressed
entry with an in-bounds range the extractor returns exactly the bytes at
`[28 + compressedTOCSize + offset, 28 + compressedTOCSize + offset + length)`
of the source. -/
theorem c1_fixed_heap_base_amended (zl bz : List Nat → Except Unit (List Nat))
    (src : List Nat) (hdr : XarHeader) (f : XmlFile) (d : XmlFileData)
    (hd : f.data = some d)
    (h1 : containsSub d.encodingStyle "x-gzip" = false)
    (h2 : containsSub d.encodingStyle "x-bzip2" = false)
    (hcs : 0 ≤ hdr.compressedSize)
    (hoff : 0 ≤ d.offset) (hlen : 0 ≤ d.length)
    (hbound : 28 + hdr.compressedSize + d.offset + d.length ≤ (src.length : Int)) :
    readEntryBytes zl bz src hdr f =
      .ok ((src.drop (28 + hdr.compressedSize + d.offset).toNat).take d.length.toNat) := by
  have hpass := passthroughReadAll_in_bounds src (28 + hdr.compressedSize)
    d.offset d.length (by omega) hoff hlen (by omega)
  rw [readEntryBytes]
  have hx : xarHeaderSize + hdr.compressedSize = 28 + hdr.compressedSize := rfl
  rw [hx]
  exact readCompressedFile_passthrough zl bz src _ _ f d hd h1 h2 _ hpass

/-- Witness for the amended claim C1: a 40-byte source, `compressedTOCSize`
of 2, an uncompressed 3-byte entry at heap offset 4 — the extractor returns
the bytes at positions 34, 35, 36. -/
theorem c1_witness :
    readEntryBytes (fun _ => .error ()) (fun _ => .error ()) (List.range 40)
        ⟨xarMagic, 28, 1, 2, 0, 1⟩
        ⟨"Distribution", "file", some ⟨3, 4, 3, "application/octet-stream"⟩⟩ =
      .ok (((List.range 40).drop ((28 + (2 : Int) + 4).toNat)).take ((3 : Int)).toNat) :=
  c1_fixed_heap_base_amended (fun _ => .error ()) (fun _ => .error ()) (List.range 40)
    ⟨xarMagic, 28, 1, 2, 0, 1⟩
    ⟨"Distribution", "file", some ⟨3, 4, 3, "application/octet-stream"⟩⟩
    ⟨3, 4, 3, "application/octet-stream"⟩ rfl (by decide) (by decide)
    (by decide) (by decide) (by decide) (by decide)

/-- Counterexample to claim C7 as stated: a pass-through entry with an empty
range (`length = 0`) and one with an out-of-bounds range (`offset = 1000`
past a 40-byte source) both make the extractor return empty bytes with no
error, instead of failing with an error naming the entry. -/
theorem c7_counterexample :
    readCompressedFile (fun _ => .error ()) (fun _ => .error ()) (List.range 40) 28 40
        ⟨"Distribution", "file", some ⟨0, 5, 0, "application/octet-stream"⟩⟩ =
      .ok [] ∧
    readCompressedFile (fun _ => .error ()) (fun _ => .error ()) (List.range 40) 28 40
        ⟨"PackageInfo", "file", some ⟨5, 1000, 5, "application/octet-stream"⟩⟩ =
      .ok [] :=
  ⟨rfl, rfl⟩

/-- Claim C7, amended: only codec streams can make the section extractor
fail.  For a pass-through entry (no codec substring in the encoding style)
the extractor never errors when the heap base is non-negative, and an empty
or out-of-bounds computed range silently produces the empty byte list. -/
theorem c7_passthrough_no_error_amended (zl bz : List Nat → Except Unit (List Nat))
    (src : List Nat) (heapOffset sectionLength : Int) (f : XmlFile) (d : XmlFileData)
    (hd : f.data = some d)
    (h1 : containsSub d.encodingStyle "x-gzip" = false)
    (h2 : containsSub d.encodingStyle "x-bzip2" = false)
    (hho : 0 ≤ heapOffset) :
    (∃ bs, readCompressedFile zl bz src heapOffset sectionLength f = .ok bs) ∧
    (d.length ≤ 0 ∨ d.offset < 0 ∨ sectionLength - heapOffset ≤ d.offset →
      readCompressedFile zl bz src heapOffset sectionLength f = .ok []) := by
  constructor
  · obtain ⟨bs, hbs⟩ := passthroughReadAll_no_error src heapOffset sectionLength
      d.offset d.length hho
    exact ⟨bs, readCompressedFile_passthrough zl bz src _ _ f d hd h1 h2 bs hbs⟩
  · intro hdeg
    exact readCompressedFile_passthrough zl bz src _ _ f d hd h1 h2 []
      (passthroughReadAll_degenerate src heapOffset sectionLength d.offset d.length hdeg)

/-- Witness for the amended claim C7 at a concrete degenerate entry. -/
theorem c7_witness :
    (∃ bs, readCompressedFile (fun _ => .error ()) (fun _ => .error ())
        (List.range 40) 28 40
        ⟨"Distribution", "file", some ⟨0, 5, 0, "application/octet-stream"⟩⟩ = .ok bs) ∧
    readCompressedFile (fun _ => .error ()) (fun _ => .error ()) (List.range 40) 28 40
        ⟨"Distribution", "file", some ⟨0, 5, 0, "application/octet-stream"⟩⟩ = .ok [] := by
  have h := c7_passthrough_no_error_amended (fun _ => .error ()) (fun _ => .error ())
    (List.range 40) 28 40
    ⟨"Distribution", "file", some ⟨0, 5, 0, "application/octet-stream"⟩⟩
    ⟨0, 5, 0, "application/octet-stream"⟩ rfl (by decide) (by decide) (by decide)
  exact ⟨h.1, h.2 (Or.inl (by decide))⟩

/-! ## Concrete fixtures for the pipeline claims -/

/-- Oracles whose decoders all fail and whose digests are empty. -/
def stubOracles : Oracles :=
  { sigToc := fun _ => .error (), bulkToc := fun _ => .error ()
    distDec := fun _ => .error (), plistDec := fun _ => .error ()
    zlibDec := fun _ => .error (), bzipDec := fun _ => .error ()
    sha1 := fun _ => [], md5 := fun _ => [], sha256 := fun _ => [] }

/-- Oracles for a structurally valid but empty container: the TOC carries no
signature markers and no files, the metadata decoders fail, and the digests
are distinguishable functions of the input. -/
def plainOracles : Oracles :=
  { sigToc := fun _ => .ok ⟨false, false⟩, bulkToc := fun _ => .ok []
    distDec := fun _ => .error (), plistDec := fun _ => .error ()
    zlibDec := fun _ => .error (), bzipDec := fun _ => .error ()
    sha1 := fun l => [1, l.length], md5 := fun l => [2, l.length]
    sha256 := fun l => [3, l.length] }

/-- A 28-byte header with valid magic, `headerSize = 28`, `version = 1`,
both TOC sizes zero, and the unrecognized hash-algorithm id `0`. -/
def hdrBytesUnknownHash : List Nat :=
  [0x78, 0x61, 0x72, 0x21, 0, 28, 0, 1,
   0, 0, 0, 0, 0, 0, 0, 0,
   0, 0, 0, 0, 0, 0, 0, 0,
   0, 0, 0, 0]

/-- A 28-byte header with valid magic, `headerSize = 28`, `version = 1`,
both TOC sizes zero, and hash-algorithm id `1` (SHA-1). -/
def validHeaderBytes : List Nat :=
  [0x78, 0x61, 0x72, 0x21, 0, 28, 0, 1,
   0, 0, 0, 0, 0, 0, 0, 0,
   0, 0, 0, 0, 0, 0, 0, 0,
   0, 0, 0, 1]

/-! ## Claim C2 — unrecognized hash id during bulk extraction -/

/-- Counterexample to claim C2 as stated: a valid-magic input with
unrecognized hash-algorithm id `0` makes `ExtractXARMetadata` abort — the
bulk path first invokes `CheckPKGSignature`, whose `parseHeader` rejects the
id, and the resulting error is neither `ErrNotSigned` nor `ErrInvalidType`,
so extraction returns it. -/
theorem c2_counterexample :
    decodeHeaderBytes hdrBytesUnknownHash =
      some ⟨xarMagic, 28, 1, 0, 0, 0⟩ ∧
    hashAlgOf 0 = none ∧
    extractXARMetadata stubOracles hdrBytesUnknownHash =
      .error (.sigCheck .unknownHash) :=
  ⟨rfl, rfl, rfl⟩

/-- Claim C2, amended: the bulk path's own header decode does not validate
the hash-algorithm id, but because `ExtractXARMetadata` first calls
`CheckPKGSignature` — which maps the id and fails with the unknown-hash error
for unrecognized ids — every input with valid magic and an unrecognized
hash-algorithm id makes bulk extraction abort with that wrapped error,
regardless of any decoder or digest behaviour. -/
theorem c2_unknown_hash_aborts_amended (O : Oracles) (src : List Nat)
    (hdr : XarHeader)
    (hd : decodeHeaderBytes src = some hdr)
    (hm : hdr.magic = xarMagic)
    (hh : hashAlgOf hdr.hashType = none) :
    extractXARMetadata O src = .error (.sigCheck .unknownHash) := by
  have hsig : checkPKGSignature O src = .failure .unknownHash := by
    simp only [checkPKGSignature, hd, hm, hh]
    simp
  simp only [extractXARMetadata, hsig]

/-- Witness for the amended claim C2 at the concrete unrecognized-id
header. -/
theorem c2_witness :
    extractXARMetadata stubOracles hdrBytesUnknownHash =
      .error (.sigCheck .unknownHash) :=
  c2_unknown_hash_aborts_amended stubOracles hdrBytesUnknownHash
    ⟨xarMagic, 28, 1, 0, 0, 0⟩ rfl rfl rfl

/-! ## Claim C5 — signature classification -/

/-- Counterexample to claim C5 as stated: a 4-byte input whose (only) four
bytes differ from the magic constant is rejected by `binary.Read` with a
short-read error before the magic is ever compared, so `CheckPKGSignature`
returns a generic failure, not `ErrInvalidType`. -/
theorem c5_counterexample :
    ([0, 0, 0, 0] : List Nat) ≠ [0x78, 0x61, 0x72, 0x21] ∧
    checkPKGSignature stubOracles [0, 0, 0, 0] = .failure .readErr ∧
    checkPKGSignature stubOracles [0, 0, 0, 0] ≠ .invalidType := by
  refine ⟨by decide, rfl, by decide⟩

/-- Claim C5, amended: for inputs of at least 28 bytes, `CheckPKGSignature`
returns `InvalidType` exactly when the first four bytes differ from the magic
constant `78 61 72 21`; and whenever the header parses with valid magic and a
recognized hash id and the TOC parses, the outcome is `Signed` precisely when
a signature or x-signature marker is present and `NotSigned` otherwise.
Inputs shorter than 28 bytes, unrecognized hash ids and TOC failures yield
generic detection failures instead. -/
theorem c5_signature_classification_amended (O : Oracles) (src : List Nat) :
    (28 ≤ src.length →
      byteAt src 0 < 256 → byteAt src 1 < 256 → byteAt src 2 < 256 →
      byteAt src 3 < 256 →
      ¬(byteAt src 0 = 0x78 ∧ byteAt src 1 = 0x61 ∧ byteAt src 2 = 0x72 ∧
        byteAt src 3 = 0x21) →
      checkPKGSignature O src = .invalidType) ∧
    (∀ (hdr : XarHeader) (alg : HashAlg) (t : TocMarkers),
      decodeHeaderBytes src = some hdr → hdr.magic = xarMagic →
      hashAlgOf hdr.hashType = some alg →
      O.sigToc (sliceClamp src hdr.headerSize hdr.compressedSize) = .ok t →
      checkPKGSignature O src =
        (if t.signature = false ∧ t.xsignature = false then .notSigned
         else .signed)) := by
  constructor
  · intro h28 hb0 hb1 hb2 hb3 hneq
    have hmag : be32 (byteAt src 0) (byteAt src 1) (byteAt src 2) (byteAt src 3) ≠
        xarMagic := by
      simp only [be32, xarMagic]
      omega
    simp only [checkPKGSignature, decodeHeaderBytes, if_pos h28]
    rw [if_pos hmag]
  · intro hdr alg t hd hm hh ht
    simp only [checkPKGSignature, hd]
    rw [if_neg (not_not_intro hm), hh, ht]

/-- Witness for the amended claim C5: 28 zero bytes are classified
`InvalidType`; a valid empty container with no markers is classified
`NotSigned`. -/
theorem c5_witness :
    checkPKGSignature stubOracles (List.replicate 28 0) = .invalidType ∧
    checkPKGSignature plainOracles validHeaderBytes = .notSigned := by
  constructor
  · exact (c5_signature_classification_amended stubOracles (List.replicate 28 0)).1
      (by decide) (by decide) (by decide) (by decide) (by decide) (by decide)
  · have h := (c5_signature_classification_amended plainOracles validHeaderBytes).2
      ⟨xarMagic, 28, 1, 0, 0, 1⟩ .sha1 ⟨false, false⟩ rfl rfl rfl rfl
    simpa using h

/-! ## Claim C6 — minimal metadata record -/

/-- Claim C6: for a structurally valid container (signature check classifies
it, header decodes, TOC parses) in which neither a Distribution nor a
PackageInfo entry is present or parseable (the strategy selection yields
nothing), extraction succeeds with a minimal record: `isSigned = false`,
empty title and version, and the three digest fields populated from the
source. -/
theorem c6_minimal_record (O : Oracles) (src : List Nat) (hdr : XarHeader)
    (files : List XmlFile)
    (hsig : checkPKGSignature O src = .signed ∨ checkPKGSignature O src = .notSigned)
    (hd : decodeHeaderBytes src = some hdr)
    (ht : O.bulkToc (sliceClamp src 28 hdr.compressedSize) = .ok files)
    (hsy : synthStrategies O
      (collectContents O src (xarHeaderSize + hdr.compressedSize)
        (src.length : Int) files).1
      (collectContents O src (xarHeaderSize + hdr.compressedSize)
        (src.length : Int) files).2 = none) :
    ∃ m, extractXARMetadata O src = .ok m ∧
      m.isSigned = false ∧ m.applicationTitle = "" ∧ m.version = "" ∧
      m.sha1Sum = O.sha1 src ∧ m.md5Sum = O.md5 src ∧ m.sha256Sum = O.sha256 src := by
  have hafter : ∀ b, extractAfterSig O src b = .ok (finishMeta O src none) := by
    intro b
    simp only [extractAfterSig, hd, ht, hsy]
    rfl
  refine ⟨finishMeta O src none, ?_, rfl, rfl, rfl, rfl, rfl, rfl⟩
  rcases hsig with h | h
  · simp only [extractXARMetadata, h]
    exact hafter true
  · simp only [extractXARMetadata, h]
    exact hafter false

/-- Witness for claim C6: the valid empty container with failing metadata
decoders yields the minimal record. -/
theorem c6_witness :
    ∃ m, extractXARMetadata plainOracles validHeaderBytes = .ok m ∧
      m.isSigned = false ∧ m.applicationTitle = "" ∧ m.version = "" ∧
      m.sha1Sum = plainOracles.sha1 validHeaderBytes ∧
      m.md5Sum = plainOracles.md5 validHeaderBytes ∧
      m.sha256Sum = plainOracles.sha256 validHeaderBytes :=
  c6_minimal_record plainOracles validHeaderBytes ⟨xarMagic, 28, 1, 0, 0, 1⟩ []
    (Or.inr rfl) rfl rfl rfl
